import Mathlib

/-!
Shallow embedding of the synchronization orchestration engine
(`SyncEngine` in `packages/backend/server/src/cache/cache.ts`,
second half of the file: `MANUALLY_STOP`, `SyncEngineStep`,
`SyncEngineStatus`, `class SyncEngine`).

The per-peer state machine (`SyncPeer`, `SyncPeerStatus`, `SyncPeerStep`
from `./peer`) is an external collaborator whose module is not part of
the excerpt; the engine only reads `peer.status.step` and compares it
against the enum constants `Synced`, `Retrying` and `LoadingRootDoc`,
so those parts are modelled from the spec (see the doc comments below).
-/

namespace AffineSync

/-- Abort reasons flowing through cancellation tokens.  `manualStop`
models the distinguished `MANUALLY_STOP` sentinel; `fault n` models any
other reason/error value. -/
inductive Reason where
  | manualStop : Reason
  | fault : Nat → Reason
deriving DecidableEq, Repr

/-- Modelled from the spec: the peer step ordering of the external
`SyncPeer` collaborator (module `./peer`, not part of the excerpt).
The spec requires a monotone, comparable ordering distinguishing at
minimum an early "loading the shared root structure" phase
(`LoadingRootDoc`), later phases, a terminal `Synced` phase, and a
`Retrying` phase that is not itself synced. -/
inductive SyncPeerStep where
  | Stopped : SyncPeerStep
  | Retrying : SyncPeerStep
  | LoadingRootDoc : SyncPeerStep
  | Syncing : SyncPeerStep
  | Synced : SyncPeerStep
deriving DecidableEq, Repr

/-- Numeric value of a peer step; the source compares steps with the
numeric enum order (`peer.step <= SyncPeerStep.LoadingRootDoc`). -/
def SyncPeerStep.toNat : SyncPeerStep → Nat
  | .Stopped => 0
  | .Retrying => 1
  | .LoadingRootDoc => 2
  | .Syncing => 3
  | .Synced => 4

/-- Modelled from the spec: a peer status carries a step value from the
peer step ordering; the engine reads no other part of it. -/
structure SyncPeerStatus where
  step : SyncPeerStep
deriving DecidableEq, Repr

/-- The slice of the external `SyncPeer` object the engine observes:
its current `status`. -/
structure SyncPeer where
  status : SyncPeerStatus
deriving DecidableEq, Repr

/-- `SyncEngineStep` from the source: `Stopped = 0, Syncing = 1, Synced = 2`. -/
inductive SyncEngineStep where
  | Stopped : SyncEngineStep
  | Syncing : SyncEngineStep
  | Synced : SyncEngineStep
deriving DecidableEq, Repr

/-- `SyncEngineStatus` from the source.  The source field `local` is a
reserved word in Lean, rendered here as `localStatus`. -/
structure SyncEngineStatus where
  step : SyncEngineStep
  localStatus : Option SyncPeerStatus
  remotes : List (Option SyncPeerStatus)
  retrying : Bool
deriving DecidableEq, Repr

/-- The all-absent `Stopped` snapshot written by the constructor and by
`stop()`: `{step: Stopped, local: null, remotes: remotes.map(() => null),
retrying: false}`. -/
def stoppedStatus (nRemotes : Nat) : SyncEngineStatus :=
  { step := .Stopped
    localStatus := none
    remotes := List.replicate nRemotes none
    retrying := false }

/-- The loop in `updateSyncingState` computing the aggregate step:
start at `Synced`; the first peer that is absent or not at
`SyncPeerStep.Synced` downgrades to `Syncing` and breaks. -/
def stepOfPeers : List (Option SyncPeer) → SyncEngineStep
  | [] => .Synced
  | none :: _ => .Syncing
  | some p :: rest =>
      if p.status.step = SyncPeerStep.Synced then stepOfPeers rest else .Syncing

/-- `SyncEngine.updateSyncingState(local, remotes)` as a pure function
from the peer slots to the status it assigns (the assignment itself goes
through the `status` setter, modelled in `SyncEngineState.setStatus`).
The source binder `local` is rendered `localPeer`. -/
def updateSyncingState (localPeer : Option SyncPeer)
    (remotePeers : List (Option SyncPeer)) : SyncEngineStatus :=
  { step := stepOfPeers (localPeer :: remotePeers)
    localStatus := localPeer.map (·.status)
    remotes := remotePeers.map (fun p => p.map (·.status))
    retrying := (localPeer :: remotePeers).any fun p =>
      match p with
      | some q => q.status.step = SyncPeerStep.Retrying
      | none => false }

/-- The slice of a `SyncEngine` instance's mutable state relevant to
`stop()` and the `status` accessors: the backing `_status` field, the
log of statuses emitted through `onStatusChange` (the setter emits, a
direct `_status` write does not), and the current run's
`AbortController` (`abortFired` / `abortReason`). -/
structure SyncEngineState where
  nRemotes : Nat
  statusField : SyncEngineStatus
  emitted : List SyncEngineStatus
  abortFired : Bool
  abortReason : Option Reason
deriving DecidableEq, Repr

/-- The private `status` setter: stores into `_status` and emits on
`onStatusChange`. -/
def SyncEngineState.setStatus (e : SyncEngineState)
    (s : SyncEngineStatus) : SyncEngineState :=
  { e with statusField := s, emitted := e.emitted ++ [s] }

/-- The public `status` getter: reads `_status`. -/
def SyncEngineState.statusGet (e : SyncEngineState) : SyncEngineStatus :=
  e.statusField

/-- `AbortController.abort(reason)`: a one-shot signal; only the first
abort records a reason. -/
def SyncEngineState.abortWith (e : SyncEngineState)
    (r : Reason) : SyncEngineState :=
  if e.abortFired then e
  else { e with abortFired := true, abortReason := some r }

/-- `SyncEngine.stop()`: aborts the run token with `MANUALLY_STOP`,
then writes the all-absent `Stopped` snapshot directly into `_status`
(bypassing the setter, hence no emission). -/
def SyncEngineState.stop (e : SyncEngineState) : SyncEngineState :=
  let e1 := e.abortWith Reason.manualStop
  { e1 with statusField := stoppedStatus e.nRemotes }

/-! ## The cancellation-aware wait primitives

`waitForSynced` / `waitForLoadedRootDoc` race (a) the first future
engine-status emission satisfying a predicate against (b) the
caller-supplied `AbortSignal` firing.  We model the caller token's
state at call time, and the subsequent interleaving of engine status
emissions and caller aborts as a list of events; the value of the wait
is which way it settles. -/

/-- The caller-supplied `AbortSignal`'s state at the time of the call:
`aborted = some r` means already aborted with reason `r`. -/
structure CallerToken where
  aborted : Option Reason
deriving DecidableEq, Repr

/-- An event observable by a pending wait: the engine emits a status on
`onStatusChange`, or the caller's token aborts with a reason. -/
inductive WaitEv where
  | emit : SyncEngineStatus → WaitEv
  | abortTok : Reason → WaitEv
deriving DecidableEq, Repr

/-- How a wait call settles.  `resolvedImmediately` is the early-return
path that never subscribes nor suspends; `resolvedAt k` resolves on the
event at index `k`; `failed r` rejects with the token's abort reason;
`pending` means no event settled it (still suspended). -/
inductive WaitOutcome where
  | resolvedImmediately : WaitOutcome
  | resolvedAt : Nat → WaitOutcome
  | failed : Reason → WaitOutcome
  | pending : WaitOutcome
deriving DecidableEq, Repr

/-- The `Promise.race` of the two pending promises: the first emission
satisfying `good` resolves; the first token abort rejects — but only
when a caller token was supplied (`listening`), since otherwise no
abort listener is registered. -/
def raceWait (good : SyncEngineStatus → Bool) (listening : Bool) :
    Nat → List WaitEv → WaitOutcome
  | _, [] => .pending
  | k, .emit st :: rest =>
      if good st then .resolvedAt k else raceWait good listening (k + 1) rest
  | k, .abortTok r :: rest =>
      if listening then .failed r else raceWait good listening (k + 1) rest

/-- The shared shape of both wait operations: early-return when the
current status already satisfies the predicate; otherwise reject
immediately when the caller token is already aborted (`if
(abort?.aborted) reject(abort?.reason)`), else race future events. -/
def waitWith (good : SyncEngineStatus → Bool) (cur : SyncEngineStatus)
    (tok : Option CallerToken) (evs : List WaitEv) : WaitOutcome :=
  if good cur then .resolvedImmediately
  else
    match tok with
    | none => raceWait good false 0 evs
    | some t =>
        match t.aborted with
        | some r => .failed r
        | none => raceWait good true 0 evs

/-- The predicate tested by `waitForSynced`: `status.step == Synced`. -/
def isSyncedStatus (st : SyncEngineStatus) : Bool :=
  st.step = SyncEngineStep.Synced

/-- `SyncEngine.waitForSynced(abort?)` given the current status, the
caller token's state, and the subsequent events. -/
def waitForSynced (cur : SyncEngineStatus) (tok : Option CallerToken)
    (evs : List WaitEv) : WaitOutcome :=
  waitWith isSyncedStatus cur tok evs

/-- The local predicate `isLoadedRootDoc(status)` of
`waitForLoadedRootDoc`: no slot among `[status.local, ...status.remotes]`
is absent or has `step <= SyncPeerStep.LoadingRootDoc`. -/
def isLoadedRootDoc (st : SyncEngineStatus) : Bool :=
  !((st.localStatus :: st.remotes).any fun p =>
    match p with
    | none => true
    | some q => q.step.toNat ≤ SyncPeerStep.LoadingRootDoc.toNat)

/-- `SyncEngine.waitForLoadedRootDoc(abort?)` given the current status,
the caller token's state, and the subsequent events. -/
def waitForLoadedRootDoc (cur : SyncEngineStatus) (tok : Option CallerToken)
    (evs : List WaitEv) : WaitOutcome :=
  waitWith isLoadedRootDoc cur tok evs

/-! ## Trace model of the orchestration procedure `sync(signal)`

`sync` runs on a single cooperative scheduler and suspends exactly at
`await localPeer.waitForLoaded(signal)` (step 2) and at the
wait-for-abort promise (step 4).  A `SyncSchedule` fixes what the
environment does at each suspension: peer status changes (which fire the
engine's subscription callbacks), the local peer passing its load
checkpoint, an unexpected fault from the load wait, and `stop()` calls.
`runSync` replays `sync` against a schedule, recording a trace of the
observable actions. -/

/-- Which call site of `updateSyncingState` produced a publication:
the one right after subscribing the local peer, a peer status-change
subscription callback during the load wait, the one right after
constructing the remote peers, or a subscription callback during the
steady phase. -/
inductive PubSrc where
  | initial : PubSrc
  | localCb : PubSrc
  | afterRemotes : PubSrc
  | steadyCb : PubSrc
deriving DecidableEq, Repr

/-- Observable actions of one `sync` run.  `publish src aborted st`
records a call of `updateSyncingState` (site `src`), whether
`signal.aborted` held at that moment, and the status it assigned.
`localLoaded` records the local peer's load wait resolving;
`disposeSubs n` records the `finally` block running the `n` collected
subscription disposers. -/
inductive TraceEv where
  | constructLocal : TraceEv
  | publish : PubSrc → Bool → SyncEngineStatus → TraceEv
  | localLoaded : TraceEv
  | constructRemote : Nat → TraceEv
  | stopLocalPeer : TraceEv
  | stopRemotePeer : Nat → TraceEv
  | disposeSubs : Nat → TraceEv
deriving DecidableEq, Repr

/-- The run's evolving state: the `signal` (aborted flag and reason),
the `state.localPeer` / `state.remotePeers` slots of `sync`, the
engine's `_status` and emission log, the length of the `cleanUp` array,
the trace, and — once the procedure unwinds — the reason that unwound
it and the outcome at the `start()` boundary (`some none` = returned
normally, `some (some r)` = threw `r`; `none` while still suspended). -/
structure RunState where
  aborted : Bool
  abortReason : Option Reason
  localPeer : Option SyncPeer
  remotePeers : List (Option SyncPeer)
  engineStatus : SyncEngineStatus
  emitted : List SyncEngineStatus
  subsCount : Nat
  trace : List TraceEv
  unwindReason : Option Reason
  outcome : Option (Option Reason)
deriving DecidableEq, Repr

/-- Environment events while `sync` is suspended at
`await localPeer.waitForLoaded(signal)`: a local-peer status change
(fires the subscription callback), the load promise resolving, the load
promise rejecting with an unexpected fault, or `engine.stop()`. -/
inductive LoadEv where
  | localStatus : SyncPeerStatus → LoadEv
  | loadDone : LoadEv
  | loadFail : Reason → LoadEv
  | callStop : LoadEv
deriving DecidableEq, Repr

/-- Environment events while `sync` is suspended at the step-4
wait-for-abort promise: peer status changes or `engine.stop()`. -/
inductive SteadyEv where
  | localStatus : SyncPeerStatus → SteadyEv
  | remoteStatus : Nat → SyncPeerStatus → SteadyEv
  | callStop : SteadyEv
deriving DecidableEq, Repr

/-- A complete environment for one `sync` run: the initial status each
peer reports on construction (`remoteInits` also fixes the number of
remote storages), and the events at each suspension point. -/
structure SyncSchedule where
  localInit : SyncPeerStatus
  remoteInits : List SyncPeerStatus
  loadPhase : List LoadEv
  steadyPhase : List SteadyEv
deriving Repr

/-- One call of `this.updateSyncingState(state.localPeer,
state.remotePeers)`: computes the aggregate status, assigns it through
the `status` setter (which emits), and is recorded in the trace along
with whether `signal.aborted` held at the call. -/
def publishState (src : PubSrc) (s : RunState) : RunState :=
  let st := updateSyncingState s.localPeer s.remotePeers
  { s with
      engineStatus := st
      emitted := s.emitted ++ [st]
      trace := s.trace ++ [.publish src s.aborted st] }

/-- `engine.stop()` invoked while the run is suspended: aborts the
signal with `MANUALLY_STOP` (one-shot) and writes the `Stopped`
snapshot directly into `_status`. -/
def stopEngine (s : RunState) : RunState :=
  let s1 :=
    if s.aborted then s
    else { s with aborted := true, abortReason := some Reason.manualStop }
  { s1 with engineStatus := stoppedStatus s1.remotePeers.length }

/-- Settlement state of the `waitForLoaded` promise. -/
inductive LoadP where
  | pendingP : LoadP
  | resolvedP : LoadP
  | rejectedP : Reason → LoadP
deriving DecidableEq, Repr

/-- Processing one environment event while suspended at step 2.  A
status change updates the peer's status, then the subscription callback
recomputes the aggregate only `if (!signal.aborted)`.  The promise is
one-shot: `loadDone` / `loadFail` / the signal's abort listener settle
it only while pending. -/
def loadStep (x : RunState × LoadP) (e : LoadEv) : RunState × LoadP :=
  let s := x.1
  let p := x.2
  match e with
  | .localStatus st =>
      let s1 := { s with localPeer := s.localPeer.map fun _ => ⟨st⟩ }
      (if s1.aborted then s1 else publishState .localCb s1, p)
  | .loadDone =>
      match p with
      | .pendingP => ({ s with trace := s.trace ++ [.localLoaded] }, .resolvedP)
      | _ => (s, p)
  | .loadFail r =>
      match p with
      | .pendingP => (s, .rejectedP r)
      | _ => (s, p)
  | .callStop =>
      let s1 := stopEngine s
      match p with
      | .pendingP =>
          (s1, .rejectedP (s1.abortReason.getD Reason.manualStop))
      | _ => (s1, p)

/-- Step 3: `state.remotePeers = this.remotes.map(remote => new SyncPeer
...)` with one subscription pushed onto `cleanUp` per remote. -/
def constructRemotes (inits : List SyncPeerStatus) (s : RunState) : RunState :=
  { s with
      remotePeers := inits.map fun st => some ⟨st⟩
      subsCount := s.subsCount + inits.length
      trace := s.trace ++ (List.range inits.length).map fun i =>
        .constructRemote i }

/-- Processing one environment event while suspended at step 4.  Status
changes of peers update the peer and fire the abort-checked callback; a
status change attributed to a remote index with no constructed peer is
a no-op (no such subscription exists). -/
def steadyStep (s : RunState) (e : SteadyEv) : RunState :=
  match e with
  | .localStatus st =>
      let s1 := { s with localPeer := s.localPeer.map fun _ => ⟨st⟩ }
      if s1.aborted then s1 else publishState .steadyCb s1
  | .remoteStatus i st =>
      match s.remotePeers[i]? with
      | some (some _) =>
          let s1 := { s with remotePeers := s.remotePeers.set i (some ⟨st⟩) }
          if s1.aborted then s1 else publishState .steadyCb s1
      | _ => s
  | .callStop => stopEngine s

/-- The `stop()` calls of the `finally` block on the remote slots:
`for (const remotePeer of state.remotePeers) remotePeer?.stop()`. -/
def stopRemoteEvs (peers : List (Option SyncPeer)) : List TraceEv :=
  (List.range peers.length).filterMap fun i =>
    match peers[i]? with
    | some (some _) => some (.stopRemotePeer i)
    | _ => none

/-- The unwind of `sync` with reason `r`: the `catch` suppresses
`MANUALLY_STOP` and rethrows anything else; the `finally` stops the
local peer if constructed, stops every constructed remote peer, and
runs every collected subscription disposer. -/
def unwind (r : Reason) (s : RunState) : RunState :=
  { s with
      trace := s.trace
        ++ (match s.localPeer with
            | some _ => [TraceEv.stopLocalPeer]
            | none => [])
        ++ stopRemoteEvs s.remotePeers
        ++ [.disposeSubs s.subsCount]
      unwindReason := some r
      outcome := some (if r = Reason.manualStop then none else some r) }

/-- The run state as `sync(signal)` begins: fresh unaborted signal, no
peers, the engine still holding the constructor's `Stopped` snapshot. -/
def initRunState (sch : SyncSchedule) : RunState :=
  { aborted := false
    abortReason := none
    localPeer := none
    remotePeers := sch.remoteInits.map fun _ => none
    engineStatus := stoppedStatus sch.remoteInits.length
    emitted := []
    subsCount := 0
    trace := []
    unwindReason := none
    outcome := none }

/-- Step 1 of `sync`, which runs without suspending: construct the
local peer, subscribe to it, and publish once immediately. -/
def afterLocal (sch : SyncSchedule) : RunState :=
  publishState .initial
    { initRunState sch with
        localPeer := some ⟨sch.localInit⟩
        subsCount := 1
        trace := [.constructLocal] }

/-- The run state and load-promise state after the step-2 suspension
has processed all its environment events. -/
def afterLoad (sch : SyncSchedule) : RunState × LoadP :=
  sch.loadPhase.foldl loadStep (afterLocal sch, .pendingP)

/-- Replaying one full `sync` run against a schedule.  A still-pending
load promise (or a steady phase with no abort) leaves the run
suspended; a rejection unwinds; a resolution runs step 3 — note the
publication after remote construction is not abort-checked — and then
the step-4 wait, which rejects with `signal.reason` as soon as the
signal is aborted. -/
def runSync (sch : SyncSchedule) : RunState :=
  match afterLoad sch with
  | (s, .pendingP) => s
  | (s, .rejectedP r) => unwind r s
  | (s, .resolvedP) =>
      let s3 := publishState .afterRemotes (constructRemotes sch.remoteInits s)
      if s3.aborted then unwind (s3.abortReason.getD Reason.manualStop) s3
      else
        let s4 := sch.steadyPhase.foldl steadyStep s3
        if s4.aborted then unwind (s4.abortReason.getD Reason.manualStop) s4
        else s4

/-- The `start()` boundary: `this.sync(signal).catch(err =>
this.logger.error(err))` — a fault escaping `sync` is logged and goes
no further. -/
def startBoundaryLog (s : RunState) : List Reason :=
  match s.outcome with
  | some (some r) => [r]
  | _ => []

/-- A present peer slot at its terminal synced phase. -/
def presentSynced (q : Option SyncPeer) : Prop :=
  ∃ p, q = some p ∧ p.status.step = SyncPeerStep.Synced

/-- Whether an event settles the race of `waitWith good`: an emission
settles it when it satisfies `good`; a caller-token abort settles it
only when an abort listener was registered. -/
def settlesW (good : SyncEngineStatus → Bool) (listening : Bool) :
    WaitEv → Bool
  | .emit st => good st
  | .abortTok _ => listening

/-! ## Status aggregation (claims C1, C2) -/

theorem stepOfPeers_eq_synced_iff (l : List (Option SyncPeer)) :
    stepOfPeers l = SyncEngineStep.Synced ↔ ∀ q ∈ l, presentSynced q := by
  induction l with
  | nil => simp [stepOfPeers]
  | cons h t ih =>
      cases h with
      | none =>
          simp only [stepOfPeers, List.forall_mem_cons]
          constructor
          · intro hc; cases hc
          · rintro ⟨⟨p, hp, _⟩, -⟩; cases hp
      | some p =>
          by_cases hp : p.status.step = SyncPeerStep.Synced
          · simp only [stepOfPeers, if_pos hp, List.forall_mem_cons, ih]
            constructor
            · intro ht; exact ⟨⟨p, rfl, hp⟩, ht⟩
            · rintro ⟨-, ht⟩; exact ht
          · simp only [stepOfPeers, if_neg hp, List.forall_mem_cons]
            constructor
            · intro hc; cases hc
            · rintro ⟨⟨p', hp', hs⟩, -⟩
              exact absurd (Option.some.inj hp' ▸ hs) hp

theorem stepOfPeers_synced_or_syncing (l : List (Option SyncPeer)) :
    stepOfPeers l = SyncEngineStep.Synced ∨
      stepOfPeers l = SyncEngineStep.Syncing := by
  induction l with
  | nil => exact Or.inl rfl
  | cons h t ih =>
      cases h with
      | none => exact Or.inr rfl
      | some p =>
          by_cases hp : p.status.step = SyncPeerStep.Synced
          · simpa [stepOfPeers, hp] using ih
          · simp [stepOfPeers, hp]

/-- C1: for every local slot and every list of remote slots,
`updateSyncingState` computes step `Synced` iff the local peer is
present at its synced phase and every remote is present at its synced
phase; in every other case it computes step `Syncing`. -/
theorem c1_updateSyncingState_step (lp : Option SyncPeer)
    (rp : List (Option SyncPeer)) :
    ((updateSyncingState lp rp).step = SyncEngineStep.Synced ↔
      presentSynced lp ∧ ∀ q ∈ rp, presentSynced q) ∧
    (¬(presentSynced lp ∧ ∀ q ∈ rp, presentSynced q) →
      (updateSyncingState lp rp).step = SyncEngineStep.Syncing) := by
  have hstep : (updateSyncingState lp rp).step = stepOfPeers (lp :: rp) := rfl
  have hiff : (updateSyncingState lp rp).step = SyncEngineStep.Synced ↔
      presentSynced lp ∧ ∀ q ∈ rp, presentSynced q := by
    rw [hstep, stepOfPeers_eq_synced_iff, List.forall_mem_cons]
  refine ⟨hiff, fun hno => ?_⟩
  rcases stepOfPeers_synced_or_syncing (lp :: rp) with h | h
  · exact absurd (hiff.mp (hstep.trans h)) hno
  · exact hstep.trans h

/-- Witness for C1 at a concrete input: one synced local peer and one
synced remote peer aggregate to `Synced`. -/
theorem c1_witness :
    (updateSyncingState (some ⟨⟨SyncPeerStep.Synced⟩⟩)
        [some ⟨⟨SyncPeerStep.Synced⟩⟩]).step = SyncEngineStep.Synced :=
  (c1_updateSyncingState_step (some ⟨⟨SyncPeerStep.Synced⟩⟩)
      [some ⟨⟨SyncPeerStep.Synced⟩⟩]).1.mpr
    ⟨⟨⟨⟨SyncPeerStep.Synced⟩⟩, rfl, rfl⟩, by
      intro q hq
      simp only [List.mem_singleton] at hq
      exact ⟨⟨⟨SyncPeerStep.Synced⟩⟩, hq, rfl⟩⟩

/-- C2: the computed `retrying` flag is true iff at least one present
peer among the local slot and the remote slots is at the retrying
phase. -/
theorem c2_updateSyncingState_retrying (lp : Option SyncPeer)
    (rp : List (Option SyncPeer)) :
    (updateSyncingState lp rp).retrying = true ↔
      ∃ q ∈ lp :: rp, ∃ p, q = some p ∧
        p.status.step = SyncPeerStep.Retrying := by
  have h : (updateSyncingState lp rp).retrying =
      ((lp :: rp).any fun p =>
        match p with
        | some q => decide (q.status.step = SyncPeerStep.Retrying)
        | none => false) := rfl
  rw [h, List.any_eq_true]
  constructor
  · rintro ⟨q, hq, hf⟩
    cases q with
    | none => cases hf
    | some p => exact ⟨some p, hq, p, rfl, of_decide_eq_true hf⟩
  · rintro ⟨q, hq, p, rfl, hs⟩
    exact ⟨some p, hq, decide_eq_true hs⟩

/-- Witness for C2 at a concrete input: a single retrying local peer
with one absent remote slot sets `retrying`. -/
theorem c2_witness :
    (updateSyncingState (some ⟨⟨SyncPeerStep.Retrying⟩⟩) [none]).retrying
      = true :=
  (c2_updateSyncingState_retrying (some ⟨⟨SyncPeerStep.Retrying⟩⟩)
      [none]).mpr
    ⟨some ⟨⟨SyncPeerStep.Retrying⟩⟩, by simp, ⟨⟨SyncPeerStep.Retrying⟩⟩,
      rfl, rfl⟩

/-! ## `stop()` (claims C3, C10) -/

/-- C3: from every prior engine state, `stop()` synchronously makes the
readable status the all-absent `Stopped` snapshot (one absent entry per
remote storage, `retrying` false) and leaves the run token aborted; the
recorded abort reason is the manual-stop sentinel whenever the token
was not already aborted (a token of this engine can only ever have been
aborted by a previous `stop()`, with the same sentinel). -/
theorem c3_stop_resets_status (e : SyncEngineState) :
    (e.stop).statusGet =
        { step := SyncEngineStep.Stopped
          localStatus := none
          remotes := List.replicate e.nRemotes none
          retrying := false } ∧
    (e.stop).abortFired = true ∧
    (e.abortFired = false →
      (e.stop).abortReason = some Reason.manualStop) := by
  refine ⟨rfl, ?_, ?_⟩
  · by_cases h : e.abortFired
    · simp [SyncEngineState.stop, SyncEngineState.abortWith, h]
    · simp [SyncEngineState.stop, SyncEngineState.abortWith, h]
  · intro h
    simp [SyncEngineState.stop, SyncEngineState.abortWith, h]

/-- Witness for C3 at a concrete prior state (running with one remote
slot populated, not yet aborted). -/
theorem c3_witness :
    (SyncEngineState.stop
        { nRemotes := 1
          statusField :=
            { step := SyncEngineStep.Syncing
              localStatus := some ⟨SyncPeerStep.Syncing⟩
              remotes := [some ⟨SyncPeerStep.Syncing⟩]
              retrying := true }
          emitted := []
          abortFired := false
          abortReason := none }).statusGet =
      { step := SyncEngineStep.Stopped
        localStatus := none
        remotes := List.replicate 1 none
        retrying := false } ∧
    (SyncEngineState.stop
        { nRemotes := 1
          statusField :=
            { step := SyncEngineStep.Syncing
              localStatus := some ⟨SyncPeerStep.Syncing⟩
              remotes := [some ⟨SyncPeerStep.Syncing⟩]
              retrying := true }
          emitted := []
          abortFired := false
          abortReason := none }).abortReason = some Reason.manualStop := by
  have h := c3_stop_resets_status
    { nRemotes := 1
      statusField :=
        { step := SyncEngineStep.Syncing
          localStatus := some ⟨SyncPeerStep.Syncing⟩
          remotes := [some ⟨SyncPeerStep.Syncing⟩]
          retrying := true }
      emitted := []
      abortFired := false
      abortReason := none }
  exact ⟨h.1, h.2.2 rfl⟩

/-! ## Race characterization of the wait primitives -/

theorem raceWait_no_listener_never_fails (good : SyncEngineStatus → Bool) :
    ∀ (evs : List WaitEv) (k : Nat) (r : Reason),
      raceWait good false k evs ≠ WaitOutcome.failed r := by
  intro evs
  induction evs with
  | nil => intro k r h; cases h
  | cons e rest ih =>
      intro k r h
      cases e with
      | emit st =>
          by_cases hg : good st = true
          · rw [raceWait, if_pos hg] at h; cases h
          · rw [raceWait, if_neg hg] at h; exact ih (k + 1) r h
      | abortTok r' =>
          rw [raceWait, if_neg (by simp)] at h
          exact ih (k + 1) r h

theorem raceWait_resolvedAt (good : SyncEngineStatus → Bool)
    (listening : Bool) :
    ∀ (evs : List WaitEv) (k j : Nat) (st : SyncEngineStatus),
      (∀ i, i < j → ∀ e, evs[i]? = some e →
        settlesW good listening e = false) →
      evs[j]? = some (WaitEv.emit st) → good st = true →
      raceWait good listening k evs = WaitOutcome.resolvedAt (k + j) := by
  intro evs
  induction evs with
  | nil => intro k j st _ hj _; simp at hj
  | cons e rest ih =>
      intro k j st hpre hj hg
      cases j with
      | zero =>
          rw [List.getElem?_cons_zero] at hj
          cases Option.some.inj hj
          rw [raceWait, if_pos hg, Nat.add_zero]
      | succ j' =>
          have h0 : settlesW good listening e = false :=
            hpre 0 (Nat.succ_pos _) e List.getElem?_cons_zero
          rw [List.getElem?_cons_succ] at hj
          have hrec := ih (k + 1) j' st
            (fun i hi e' he' =>
              hpre (i + 1) (Nat.succ_lt_succ hi) e'
                (by rw [List.getElem?_cons_succ]; exact he'))
            hj hg
          cases e with
          | emit st' =>
              have hg' : good st' = false := h0
              rw [raceWait, if_neg (by simp [hg']), hrec]
              congr 1
              omega
          | abortTok r' =>
              have hl : listening = false := h0
              subst hl
              rw [raceWait, if_neg (by simp), hrec]
              congr 1
              omega

theorem raceWait_failedAt (good : SyncEngineStatus → Bool) :
    ∀ (evs : List WaitEv) (k j : Nat) (r : Reason),
      (∀ i, i < j → ∀ e, evs[i]? = some e → settlesW good true e = false) →
      evs[j]? = some (WaitEv.abortTok r) →
      raceWait good true k evs = WaitOutcome.failed r := by
  intro evs
  induction evs with
  | nil => intro k j r _ hj; simp at hj
  | cons e rest ih =>
      intro k j r hpre hj
      cases j with
      | zero =>
          rw [List.getElem?_cons_zero] at hj
          cases Option.some.inj hj
          rw [raceWait, if_pos rfl]
      | succ j' =>
          have h0 : settlesW good true e = false :=
            hpre 0 (Nat.succ_pos _) e List.getElem?_cons_zero
          rw [List.getElem?_cons_succ] at hj
          have hrec := ih (k + 1) j' r
            (fun i hi e' he' =>
              hpre (i + 1) (Nat.succ_lt_succ hi) e'
                (by rw [List.getElem?_cons_succ]; exact he'))
            hj
          cases e with
          | emit st' =>
              have hg' : good st' = false := h0
              rw [raceWait, if_neg (by simp [hg']), hrec]
          | abortTok r' => cases h0

theorem raceWait_ne_immediate (good : SyncEngineStatus → Bool)
    (listening : Bool) :
    ∀ (evs : List WaitEv) (k : Nat),
      raceWait good listening k evs ≠ WaitOutcome.resolvedImmediately := by
  intro evs
  induction evs with
  | nil => intro k h; cases h
  | cons e rest ih =>
      intro k h
      cases e with
      | emit st =>
          by_cases hs : good st = true
          · rw [raceWait, if_pos hs] at h; cases h
          · rw [raceWait, if_neg hs] at h; exact ih _ h
      | abortTok r =>
          by_cases hl : listening = true
          · rw [raceWait, if_pos hl] at h; cases h
          · rw [raceWait, if_neg hl] at h; exact ih _ h

theorem waitWith_immediate (good : SyncEngineStatus → Bool)
    (cur : SyncEngineStatus) (tok : Option CallerToken) (evs : List WaitEv) :
    waitWith good cur tok evs = WaitOutcome.resolvedImmediately ↔
      good cur = true := by
  constructor
  · intro h
    by_cases hg : good cur = true
    · exact hg
    · exfalso
      unfold waitWith at h
      rw [if_neg hg] at h
      split at h
      · exact raceWait_ne_immediate good false evs 0 h
      · split at h
        · cases h
        · exact raceWait_ne_immediate good true evs 0 h
  · intro hg
    unfold waitWith
    rw [if_pos hg]

theorem waitWith_preaborted (good : SyncEngineStatus → Bool)
    (cur : SyncEngineStatus) (r : Reason) (evs : List WaitEv)
    (hg : good cur = false) :
    waitWith good cur (some ⟨some r⟩) evs = WaitOutcome.failed r := by
  unfold waitWith
  rw [if_neg (by simp [hg])]

theorem waitWith_no_token_never_fails (good : SyncEngineStatus → Bool)
    (cur : SyncEngineStatus) (evs : List WaitEv) (r : Reason) :
    waitWith good cur none evs ≠ WaitOutcome.failed r := by
  unfold waitWith
  by_cases hg : good cur = true
  · rw [if_pos hg]; intro h; cases h
  · rw [if_neg hg]
    exact raceWait_no_listener_never_fails good evs 0 r

theorem waitWith_live_token_resolvesAt (good : SyncEngineStatus → Bool)
    (cur : SyncEngineStatus) (evs : List WaitEv) (j : Nat)
    (st : SyncEngineStatus) (hg : good cur = false)
    (hpre : ∀ i, i < j → ∀ e, evs[i]? = some e →
      settlesW good true e = false)
    (hj : evs[j]? = some (WaitEv.emit st)) (hst : good st = true) :
    waitWith good cur (some ⟨none⟩) evs = WaitOutcome.resolvedAt j := by
  unfold waitWith
  rw [if_neg (by simp [hg])]
  show raceWait good true 0 evs = WaitOutcome.resolvedAt j
  simpa using raceWait_resolvedAt good true evs 0 j st hpre hj hst

theorem waitWith_live_token_failsAt (good : SyncEngineStatus → Bool)
    (cur : SyncEngineStatus) (evs : List WaitEv) (j : Nat) (r : Reason)
    (hg : good cur = false)
    (hpre : ∀ i, i < j → ∀ e, evs[i]? = some e →
      settlesW good true e = false)
    (hj : evs[j]? = some (WaitEv.abortTok r)) :
    waitWith good cur (some ⟨none⟩) evs = WaitOutcome.failed r := by
  unfold waitWith
  rw [if_neg (by simp [hg])]
  show raceWait good true 0 evs = WaitOutcome.failed r
  exact raceWait_failedAt good evs 0 j r hpre hj

theorem waitWith_no_token_resolvesAt (good : SyncEngineStatus → Bool)
    (cur : SyncEngineStatus) (evs : List WaitEv) (j : Nat)
    (st : SyncEngineStatus) (hg : good cur = false)
    (hpre : ∀ i, i < j → ∀ e, evs[i]? = some e →
      settlesW good false e = false)
    (hj : evs[j]? = some (WaitEv.emit st)) (hst : good st = true) :
    waitWith good cur none evs = WaitOutcome.resolvedAt j := by
  unfold waitWith
  rw [if_neg (by simp [hg])]
  show raceWait good false 0 evs = WaitOutcome.resolvedAt j
  simpa using raceWait_resolvedAt good false evs 0 j st hpre hj hst

theorem isSyncedStatus_iff (st : SyncEngineStatus) :
    isSyncedStatus st = true ↔ st.step = SyncEngineStep.Synced := by
  simp [isSyncedStatus]

/-! ## `waitForSynced` (claim C6) -/

/-- C6: `waitForSynced` resolves immediately, without subscribing or
suspending, exactly when the current status step is already `Synced`;
with no caller token it can never fail; with an already-aborted caller
token it fails immediately with that token's reason; with a live caller
token it resolves at the first event emitting a `Synced` status (when no
settling event precedes it) and fails with the token's abort reason at
the first token-abort event (when no settling event precedes it); with
no caller token it still resolves at the first `Synced` emission. -/
theorem c6_waitForSynced (cur : SyncEngineStatus) (evs : List WaitEv) :
    (∀ tok, waitForSynced cur tok evs = WaitOutcome.resolvedImmediately ↔
      cur.step = SyncEngineStep.Synced) ∧
    (∀ r, waitForSynced cur none evs ≠ WaitOutcome.failed r) ∧
    (∀ r, cur.step ≠ SyncEngineStep.Synced →
      waitForSynced cur (some ⟨some r⟩) evs = WaitOutcome.failed r) ∧
    (∀ (j : Nat) (st : SyncEngineStatus), cur.step ≠ SyncEngineStep.Synced →
      (∀ i, i < j → ∀ e, evs[i]? = some e →
        settlesW isSyncedStatus true e = false) →
      evs[j]? = some (WaitEv.emit st) → st.step = SyncEngineStep.Synced →
      waitForSynced cur (some ⟨none⟩) evs = WaitOutcome.resolvedAt j) ∧
    (∀ (j : Nat) (r : Reason), cur.step ≠ SyncEngineStep.Synced →
      (∀ i, i < j → ∀ e, evs[i]? = some e →
        settlesW isSyncedStatus true e = false) →
      evs[j]? = some (WaitEv.abortTok r) →
      waitForSynced cur (some ⟨none⟩) evs = WaitOutcome.failed r) ∧
    (∀ (j : Nat) (st : SyncEngineStatus), cur.step ≠ SyncEngineStep.Synced →
      (∀ i, i < j → ∀ e, evs[i]? = some e →
        settlesW isSyncedStatus false e = false) →
      evs[j]? = some (WaitEv.emit st) → st.step = SyncEngineStep.Synced →
      waitForSynced cur none evs = WaitOutcome.resolvedAt j) := by
  refine ⟨fun tok => ?_, fun r => ?_, fun r hc => ?_,
    fun j st hc hpre hj hst => ?_, fun j r hc hpre hj => ?_,
    fun j st hc hpre hj hst => ?_⟩
  · exact (waitWith_immediate isSyncedStatus cur tok evs).trans
      (isSyncedStatus_iff cur)
  · exact waitWith_no_token_never_fails isSyncedStatus cur evs r
  · exact waitWith_preaborted isSyncedStatus cur r evs
      (by simp [isSyncedStatus, hc])
  · exact waitWith_live_token_resolvesAt isSyncedStatus cur evs j st
      (by simp [isSyncedStatus, hc]) hpre hj
      ((isSyncedStatus_iff st).mpr hst)
  · exact waitWith_live_token_failsAt isSyncedStatus cur evs j r
      (by simp [isSyncedStatus, hc]) hpre hj
  · exact waitWith_no_token_resolvesAt isSyncedStatus cur evs j st
      (by simp [isSyncedStatus, hc]) hpre hj
      ((isSyncedStatus_iff st).mpr hst)

/-- Witness for C6: while `Syncing` with a pre-aborted caller token and
no further events, `waitForSynced` fails with the token's reason. -/
theorem c6_witness :
    waitForSynced (stoppedStatus 0) (some ⟨some (Reason.fault 0)⟩) []
      = WaitOutcome.failed (Reason.fault 0) :=
  (c6_waitForSynced (stoppedStatus 0) []).2.2.1 (Reason.fault 0)
    (by decide)

/-! ## `waitForLoadedRootDoc` (claims C7, C8) -/

/-- A present peer slot strictly past the `LoadingRootDoc` phase. -/
def presentLoaded (q : Option SyncPeerStatus) : Prop :=
  ∃ p, q = some p ∧ SyncPeerStep.LoadingRootDoc.toNat < p.step.toNat

theorem isLoadedRootDoc_iff (st : SyncEngineStatus) :
    isLoadedRootDoc st = true ↔
      ∀ q ∈ st.localStatus :: st.remotes, presentLoaded q := by
  unfold isLoadedRootDoc
  rw [Bool.not_eq_true', List.any_eq_false]
  constructor
  · intro h q hq
    have hf := h q hq
    cases q with
    | none => exact absurd rfl hf
    | some p =>
        refine ⟨p, rfl, ?_⟩
        have hd : ¬(decide (p.step.toNat ≤
            SyncPeerStep.LoadingRootDoc.toNat) = true) := hf
        have hnle : ¬(p.step.toNat ≤ SyncPeerStep.LoadingRootDoc.toNat) :=
          fun hle => hd (decide_eq_true hle)
        exact Nat.not_le.mp hnle
  · intro h q hq
    rcases h q hq with ⟨p, rfl, hp⟩
    show ¬(decide (p.step.toNat ≤ SyncPeerStep.LoadingRootDoc.toNat) = true)
    intro hd
    have := of_decide_eq_true hd
    omega

/-- C8: the resolution predicate of `waitForLoadedRootDoc` holds on a
status exactly when every slot (local and each remote) is present with
its step strictly greater than the loading-root-structure phase; the
predicate ignores the aggregate step field (so `Syncing` statuses can
satisfy it); the wait resolves immediately exactly when the current
status satisfies it, and otherwise resolves at the first subsequently
published status satisfying it. -/
theorem c8_waitForLoadedRootDoc (cur : SyncEngineStatus) :
    (isLoadedRootDoc cur = true ↔
      ∀ q ∈ cur.localStatus :: cur.remotes, presentLoaded q) ∧
    (∀ s' : SyncEngineStep,
      isLoadedRootDoc { cur with step := s' } = isLoadedRootDoc cur) ∧
    (∀ (tok : Option CallerToken) (evs : List WaitEv),
      waitForLoadedRootDoc cur tok evs = WaitOutcome.resolvedImmediately ↔
        isLoadedRootDoc cur = true) ∧
    (∀ (evs : List WaitEv) (j : Nat) (st : SyncEngineStatus),
      isLoadedRootDoc cur = false →
      (∀ i, i < j → ∀ e, evs[i]? = some e →
        settlesW isLoadedRootDoc true e = false) →
      evs[j]? = some (WaitEv.emit st) → isLoadedRootDoc st = true →
      waitForLoadedRootDoc cur (some ⟨none⟩) evs =
        WaitOutcome.resolvedAt j) ∧
    (∀ (evs : List WaitEv) (j : Nat) (st : SyncEngineStatus),
      isLoadedRootDoc cur = false →
      (∀ i, i < j → ∀ e, evs[i]? = some e →
        settlesW isLoadedRootDoc false e = false) →
      evs[j]? = some (WaitEv.emit st) → isLoadedRootDoc st = true →
      waitForLoadedRootDoc cur none evs = WaitOutcome.resolvedAt j) := by
  refine ⟨isLoadedRootDoc_iff cur, fun s' => rfl, fun tok evs => ?_,
    fun evs j st hc hpre hj hst => ?_, fun evs j st hc hpre hj hst => ?_⟩
  · exact waitWith_immediate isLoadedRootDoc cur tok evs
  · exact waitWith_live_token_resolvesAt isLoadedRootDoc cur evs j st hc
      hpre hj hst
  · exact waitWith_no_token_resolvesAt isLoadedRootDoc cur evs j st hc
      hpre hj hst

/-- Witness for C8: from a not-yet-loaded current status, the wait
resolves on the first published status whose slots are all present and
past `LoadingRootDoc`, although that status's aggregate step is still
`Syncing`. -/
theorem c8_witness :
    waitForLoadedRootDoc (stoppedStatus 1) (some ⟨none⟩)
        [WaitEv.emit
          { step := SyncEngineStep.Syncing
            localStatus := some ⟨SyncPeerStep.Syncing⟩
            remotes := [some ⟨SyncPeerStep.Synced⟩]
            retrying := false }] = WaitOutcome.resolvedAt 0 :=
  (c8_waitForLoadedRootDoc (stoppedStatus 1)).2.2.2.1
    [WaitEv.emit
      { step := SyncEngineStep.Syncing
        localStatus := some ⟨SyncPeerStep.Syncing⟩
        remotes := [some ⟨SyncPeerStep.Synced⟩]
        retrying := false }] 0
    { step := SyncEngineStep.Syncing
      localStatus := some ⟨SyncPeerStep.Syncing⟩
      remotes := [some ⟨SyncPeerStep.Synced⟩]
      retrying := false }
    (by decide) (fun i hi e he => absurd hi (Nat.not_lt_zero i))
    (by decide) (by decide)

/-- C7 counterexample: with an already-aborted caller token but a
current status already satisfying the loaded predicate,
`waitForLoadedRootDoc` inspects the current status first and resolves
immediately instead of failing with the token's reason. -/
theorem c7_counterexample :
    waitForLoadedRootDoc
        { step := SyncEngineStep.Syncing
          localStatus := some ⟨SyncPeerStep.Syncing⟩
          remotes := []
          retrying := false }
        (some ⟨some (Reason.fault 3)⟩) [] =
      WaitOutcome.resolvedImmediately ∧
    waitForLoadedRootDoc
        { step := SyncEngineStep.Syncing
          localStatus := some ⟨SyncPeerStep.Syncing⟩
          remotes := []
          retrying := false }
        (some ⟨some (Reason.fault 3)⟩) [] ≠
      WaitOutcome.failed (Reason.fault 3) := by
  constructor
  · decide
  · decide

/-- C7 amended: `waitForLoadedRootDoc` first inspects the current
aggregate status; with an already-aborted caller token it fails
immediately with that token's abort reason exactly when the current
status does not already satisfy the loaded predicate — when it does,
the call resolves immediately instead. -/
theorem c7_amended (cur : SyncEngineStatus) (r : Reason)
    (evs : List WaitEv) :
    (isLoadedRootDoc cur = false →
      waitForLoadedRootDoc cur (some ⟨some r⟩) evs =
        WaitOutcome.failed r) ∧
    (isLoadedRootDoc cur = true →
      waitForLoadedRootDoc cur (some ⟨some r⟩) evs =
        WaitOutcome.resolvedImmediately) := by
  constructor
  · intro h
    exact waitWith_preaborted isLoadedRootDoc cur r evs h
  · intro h
    exact (waitWith_immediate isLoadedRootDoc cur (some ⟨some r⟩) evs).mpr h

/-- Witness for the amended C7: from a not-loaded current status with a
pre-aborted token, the call fails with the token's reason. -/
theorem c7_witness :
    waitForLoadedRootDoc (stoppedStatus 0) (some ⟨some (Reason.fault 3)⟩) []
      = WaitOutcome.failed (Reason.fault 3) :=
  (c7_amended (stoppedStatus 0) (Reason.fault 3) []).1 (by decide)

/-! ## Trace lemmas for the orchestration procedure -/

theorem publishState_trace_ext (src : PubSrc) (s : RunState) :
    ∃ d, (publishState src s).trace = s.trace ++ d ∧
      ∀ i, TraceEv.constructRemote i ∉ d :=
  ⟨[TraceEv.publish src s.aborted
      (updateSyncingState s.localPeer s.remotePeers)], rfl, by simp⟩

theorem stopEngine_trace (s : RunState) : (stopEngine s).trace = s.trace := by
  by_cases h : s.aborted
  · simp [stopEngine, h]
  · simp [stopEngine, h]

theorem loadStep_trace (x : RunState × LoadP) (e : LoadEv) :
    ∃ d, (loadStep x e).1.trace = x.1.trace ++ d ∧
      ∀ i, TraceEv.constructRemote i ∉ d := by
  rcases x with ⟨s, p⟩
  cases e with
  | localStatus st =>
      simp only [loadStep]
      split
      · exact ⟨[], by simp, by simp⟩
      · rcases publishState_trace_ext .localCb
          { s with localPeer := s.localPeer.map fun _ => ⟨st⟩ }
          with ⟨d, hd, hn⟩
        exact ⟨d, hd, hn⟩
  | loadDone =>
      cases p with
      | pendingP => exact ⟨[.localLoaded], rfl, by simp⟩
      | resolvedP => exact ⟨[], by simp [loadStep], by simp⟩
      | rejectedP r => exact ⟨[], by simp [loadStep], by simp⟩
  | loadFail r =>
      cases p with
      | pendingP => exact ⟨[], by simp [loadStep], by simp⟩
      | resolvedP => exact ⟨[], by simp [loadStep], by simp⟩
      | rejectedP r' => exact ⟨[], by simp [loadStep], by simp⟩
  | callStop =>
      cases p with
      | pendingP =>
          exact ⟨[], by simp [loadStep, stopEngine_trace], by simp⟩
      | resolvedP =>
          exact ⟨[], by simp [loadStep, stopEngine_trace], by simp⟩
      | rejectedP r' =>
          exact ⟨[], by simp [loadStep, stopEngine_trace], by simp⟩

theorem foldl_loadStep_trace (evs : List LoadEv) (x : RunState × LoadP) :
    ∃ d, (evs.foldl loadStep x).1.trace = x.1.trace ++ d ∧
      ∀ i, TraceEv.constructRemote i ∉ d := by
  induction evs generalizing x with
  | nil => exact ⟨[], by simp, by simp⟩
  | cons e rest ih =>
      rcases loadStep_trace x e with ⟨d1, h1, hn1⟩
      rcases ih (loadStep x e) with ⟨d2, h2, hn2⟩
      refine ⟨d1 ++ d2, ?_, ?_⟩
      · rw [List.foldl_cons, h2, h1, List.append_assoc]
      · intro i hm
        rcases List.mem_append.mp hm with hm | hm
        · exact hn1 i hm
        · exact hn2 i hm

theorem loadStep_preserves_resolved (x : RunState × LoadP) (e : LoadEv)
    (h : x.2 = LoadP.resolvedP) : (loadStep x e).2 = LoadP.resolvedP := by
  rcases x with ⟨s, p⟩
  cases h
  cases e with
  | localStatus st => rfl
  | loadDone => rfl
  | loadFail r => rfl
  | callStop => rfl

theorem loadStep_new_resolved (x : RunState × LoadP) (e : LoadEv)
    (h : (loadStep x e).2 = LoadP.resolvedP)
    (hx : x.2 ≠ LoadP.resolvedP) :
    TraceEv.localLoaded ∈ (loadStep x e).1.trace := by
  rcases x with ⟨s, p⟩
  cases e with
  | localStatus st => exact absurd h hx
  | loadDone =>
      cases p with
      | pendingP => simp [loadStep]
      | resolvedP => exact absurd rfl hx
      | rejectedP r => exact absurd h hx
  | loadFail r =>
      cases p with
      | pendingP => cases h
      | resolvedP => exact absurd rfl hx
      | rejectedP r' => exact absurd h hx
  | callStop =>
      cases p with
      | pendingP => cases h
      | resolvedP => exact absurd rfl hx
      | rejectedP r' => exact absurd h hx

theorem foldl_loadStep_resolved (evs : List LoadEv) (x : RunState × LoadP)
    (h : (evs.foldl loadStep x).2 = LoadP.resolvedP) :
    x.2 = LoadP.resolvedP ∨
      TraceEv.localLoaded ∈ (evs.foldl loadStep x).1.trace := by
  induction evs generalizing x with
  | nil => exact Or.inl h
  | cons e rest ih =>
      rw [List.foldl_cons] at h
      rcases ih (loadStep x e) h with hy | hy
      · by_cases hx : x.2 = LoadP.resolvedP
        · exact Or.inl hx
        · right
          have hm := loadStep_new_resolved x e hy hx
          rcases foldl_loadStep_trace rest (loadStep x e) with ⟨d, hd, -⟩
          rw [List.foldl_cons, hd]
          exact List.mem_append_left d hm
      · right
        rw [List.foldl_cons]
        exact hy

theorem steadyStep_trace (s : RunState) (e : SteadyEv) :
    ∃ d, (steadyStep s e).trace = s.trace ++ d ∧
      ∀ i, TraceEv.constructRemote i ∉ d := by
  cases e with
  | localStatus st =>
      simp only [steadyStep]
      split
      · exact ⟨[], by simp, by simp⟩
      · rcases publishState_trace_ext .steadyCb
          { s with localPeer := s.localPeer.map fun _ => ⟨st⟩ }
          with ⟨d, hd, hn⟩
        exact ⟨d, hd, hn⟩
  | remoteStatus i st =>
      simp only [steadyStep]
      split
      · split
        · exact ⟨[], by simp, by simp⟩
        · rcases publishState_trace_ext .steadyCb
            { s with remotePeers := s.remotePeers.set i (some ⟨st⟩) }
            with ⟨d, hd, hn⟩
          exact ⟨d, hd, hn⟩
      · exact ⟨[], by simp, by simp⟩
  | callStop => exact ⟨[], by simp [steadyStep, stopEngine_trace], by simp⟩

theorem foldl_steadyStep_trace (evs : List SteadyEv) (s : RunState) :
    ∃ d, (evs.foldl steadyStep s).trace = s.trace ++ d ∧
      ∀ i, TraceEv.constructRemote i ∉ d := by
  induction evs generalizing s with
  | nil => exact ⟨[], by simp, by simp⟩
  | cons e rest ih =>
      rcases steadyStep_trace s e with ⟨d1, h1, hn1⟩
      rcases ih (steadyStep s e) with ⟨d2, h2, hn2⟩
      refine ⟨d1 ++ d2, ?_, ?_⟩
      · rw [List.foldl_cons, h2, h1, List.append_assoc]
      · intro i hm
        rcases List.mem_append.mp hm with hm | hm
        · exact hn1 i hm
        · exact hn2 i hm

theorem unwind_trace (r : Reason) (s : RunState) :
    ∃ d, (unwind r s).trace = s.trace ++ d ∧
      ∀ i, TraceEv.constructRemote i ∉ d := by
  refine ⟨(match s.localPeer with
      | some _ => [TraceEv.stopLocalPeer]
      | none => []) ++ stopRemoteEvs s.remotePeers
      ++ [.disposeSubs s.subsCount], ?_, fun i hm => ?_⟩
  · simp [unwind, List.append_assoc]
  · rcases List.mem_append.mp hm with hm | hm
    · rcases List.mem_append.mp hm with hm | hm
      · cases hl : s.localPeer with
        | none => rw [hl] at hm; cases hm
        | some p => rw [hl] at hm; cases List.mem_singleton.mp hm
      · rcases List.mem_filterMap.mp hm with ⟨j, -, hj⟩
        rcases hq : s.remotePeers[j]? with - | q
        · rw [hq] at hj; cases hj
        · cases q with
          | none => rw [hq] at hj; cases hj
          | some pr => rw [hq] at hj; cases hj
    · cases List.mem_singleton.mp hm

/-- The prefix of the run's trace accumulated by steps 1 and 2 never
contains a remote-peer construction. -/
theorem afterLoad_no_constructRemote (sch : SyncSchedule) (i : Nat) :
    TraceEv.constructRemote i ∉ (afterLoad sch).1.trace := by
  rcases foldl_loadStep_trace sch.loadPhase (afterLocal sch, .pendingP)
    with ⟨d, hd, hn⟩
  intro hm
  rw [afterLoad, hd] at hm
  rcases List.mem_append.mp hm with hm | hm
  · simp [afterLocal, publishState, initRunState] at hm
  · exact hn i hm

/-- Anything in the trace prefix produced by steps 1 and 2 precedes
anything that is absent from that prefix. -/
theorem precedes_of_append (pre post : List TraceEv) (a b : TraceEv)
    (ha : a ∈ pre) (hb : b ∉ pre) (k : Nat)
    (hk : (pre ++ post)[k]? = some b) :
    ∃ j, j < k ∧ (pre ++ post)[j]? = some a := by
  rcases List.getElem_of_mem ha with ⟨j, hj, hja⟩
  have hjk : pre.length ≤ k := by
    by_contra hlt
    push_neg at hlt
    rw [List.getElem?_append, if_pos hlt] at hk
    exact hb (List.getElem?_mem hk)
  refine ⟨j, lt_of_lt_of_le hj hjk, ?_⟩
  rw [List.getElem?_append, if_pos hj]
  rw [List.getElem?_eq_getElem hj, hja]

/-- In the resolved branch the final trace extends the step-1/2 prefix. -/
theorem runSync_trace_extends (sch : SyncSchedule)
    (h : (afterLoad sch).2 = LoadP.resolvedP) :
    ∃ d, (runSync sch).trace = (afterLoad sch).1.trace ++ d := by
  rcases hx : afterLoad sch with ⟨s2, p⟩
  rw [hx] at h
  cases h
  simp only [runSync, hx]
  set s3 := publishState .afterRemotes (constructRemotes sch.remoteInits s2)
    with hs3
  have hs3t : s3.trace = s2.trace ++
      ((List.range sch.remoteInits.length).map fun i =>
        TraceEv.constructRemote i) ++
      [TraceEv.publish .afterRemotes
        (constructRemotes sch.remoteInits s2).aborted
        (updateSyncingState (constructRemotes sch.remoteInits s2).localPeer
          (constructRemotes sch.remoteInits s2).remotePeers)] := by
    rw [hs3]
    simp [publishState, constructRemotes, List.append_assoc]
  by_cases hab : s3.aborted
  · rw [if_pos hab]
    rcases unwind_trace (s3.abortReason.getD Reason.manualStop) s3
      with ⟨d, hd, -⟩
    exact ⟨_, by rw [hd, hs3t, List.append_assoc, List.append_assoc]⟩
  · rw [if_neg hab]
    rcases foldl_steadyStep_trace sch.steadyPhase s3 with ⟨d4, hd4, -⟩
    set s4 := sch.steadyPhase.foldl steadyStep s3 with hs4
    by_cases hab4 : s4.aborted
    · rw [if_pos hab4]
      rcases unwind_trace (s4.abortReason.getD Reason.manualStop) s4
        with ⟨d, hd, -⟩
      exact ⟨_, by rw [hd, hd4, hs3t, List.append_assoc, List.append_assoc,
        List.append_assoc]⟩
    · rw [if_neg hab4]
      exact ⟨_, by rw [hd4, hs3t, List.append_assoc, List.append_assoc]⟩

/-- C4: in every execution of the orchestration procedure, every
remote-peer construction in the trace is strictly preceded by the local
peer's load wait completing: `status.remotes` can only become populated
after the local peer has passed its load checkpoint. -/
theorem c4_local_loaded_before_remote_construction (sch : SyncSchedule)
    (i k : Nat)
    (hk : (runSync sch).trace[k]? = some (TraceEv.constructRemote i)) :
    ∃ j, j < k ∧ (runSync sch).trace[j]? = some TraceEv.localLoaded := by
  rcases hx : afterLoad sch with ⟨s2, p⟩
  have hnoCR : TraceEv.constructRemote i ∉ s2.trace := by
    have := afterLoad_no_constructRemote sch i
    rw [hx] at this
    exact this
  cases p with
  | pendingP =>
      simp only [runSync, hx] at hk
      exact absurd (List.getElem?_mem hk) hnoCR
  | rejectedP r =>
      simp only [runSync, hx] at hk
      rcases unwind_trace r s2 with ⟨d, hd, hn⟩
      rw [hd] at hk
      rcases List.mem_append.mp (List.getElem?_mem hk) with hm | hm
      · exact absurd hm hnoCR
      · exact absurd hm (hn i)
  | resolvedP =>
      have hres : (afterLoad sch).2 = LoadP.resolvedP := by rw [hx]
      have hLL : TraceEv.localLoaded ∈ s2.trace := by
        rcases foldl_loadStep_resolved sch.loadPhase
          (afterLocal sch, .pendingP) (by rw [← afterLoad, hx]) with h | h
        · cases h
        · rw [← afterLoad, hx] at h
          exact h
      rcases runSync_trace_extends sch hres with ⟨d, hd⟩
      rw [hx] at hd
      rw [hd] at hk ⊢
      exact precedes_of_append s2.trace d TraceEv.localLoaded
        (TraceEv.constructRemote i) hLL hnoCR k hk

/-- Witness for C4 on a concrete schedule with one remote: the remote
construction at trace index 3 is preceded by `localLoaded`. -/
theorem c4_witness :
    ∃ j, j < 3 ∧
      (runSync ⟨⟨SyncPeerStep.LoadingRootDoc⟩, [⟨SyncPeerStep.Syncing⟩],
        [LoadEv.loadDone], []⟩).trace[j]? = some TraceEv.localLoaded :=
  c4_local_loaded_before_remote_construction
    ⟨⟨SyncPeerStep.LoadingRootDoc⟩, [⟨SyncPeerStep.Syncing⟩],
      [LoadEv.loadDone], []⟩ 0 3 (by decide)

/-! ## Abort checks on status recomputation (claim C5) -/

/-- Every publication in a trace either originates from the one
unchecked call site after remote construction or was made while the
signal was not aborted. -/
def pubChecked (tr : List TraceEv) : Prop :=
  ∀ src b st, TraceEv.publish src b st ∈ tr →
    src = PubSrc.afterRemotes ∨ b = false

theorem publishState_pubChecked (src : PubSrc) (s : RunState)
    (h : pubChecked s.trace)
    (hok : src = PubSrc.afterRemotes ∨ s.aborted = false) :
    pubChecked (publishState src s).trace := by
  intro src' b st hm
  rw [show (publishState src s).trace = s.trace ++
      [TraceEv.publish src s.aborted
        (updateSyncingState s.localPeer s.remotePeers)] from rfl] at hm
  rcases List.mem_append.mp hm with hm | hm
  · exact h src' b st hm
  · have he := List.mem_singleton.mp hm
    cases he
    exact hok

theorem stopEngine_pubChecked (s : RunState) (h : pubChecked s.trace) :
    pubChecked (stopEngine s).trace := by
  rw [stopEngine_trace]
  exact h

theorem loadStep_pubChecked (x : RunState × LoadP) (e : LoadEv)
    (h : pubChecked x.1.trace) : pubChecked (loadStep x e).1.trace := by
  rcases x with ⟨s, p⟩
  cases e with
  | localStatus st =>
      simp only [loadStep]
      by_cases hab : s.aborted = true
      · rw [if_pos hab]
        exact h
      · rw [if_neg hab]
        refine publishState_pubChecked .localCb _ h (Or.inr ?_)
        revert hab
        cases s.aborted <;> simp
  | loadDone =>
      cases p with
      | pendingP =>
          intro src b st hm
          rcases List.mem_append.mp hm with hm | hm
          · exact h src b st hm
          · cases List.mem_singleton.mp hm
      | resolvedP => exact h
      | rejectedP r => exact h
  | loadFail r =>
      cases p with
      | pendingP => exact h
      | resolvedP => exact h
      | rejectedP r' => exact h
  | callStop =>
      cases p with
      | pendingP => exact stopEngine_pubChecked s h
      | resolvedP => exact stopEngine_pubChecked s h
      | rejectedP r' => exact stopEngine_pubChecked s h

theorem foldl_loadStep_pubChecked (evs : List LoadEv) (x : RunState × LoadP)
    (h : pubChecked x.1.trace) :
    pubChecked (evs.foldl loadStep x).1.trace := by
  induction evs generalizing x with
  | nil => exact h
  | cons e rest ih => exact ih (loadStep x e) (loadStep_pubChecked x e h)

theorem constructRemotes_pubChecked (inits : List SyncPeerStatus)
    (s : RunState) (h : pubChecked s.trace) :
    pubChecked (constructRemotes inits s).trace := by
  intro src b st hm
  rw [show (constructRemotes inits s).trace = s.trace ++
      ((List.range inits.length).map fun i => TraceEv.constructRemote i)
      from rfl] at hm
  rcases List.mem_append.mp hm with hm | hm
  · exact h src b st hm
  · rcases List.mem_map.mp hm with ⟨i, -, hi⟩
    cases hi

theorem steadyStep_pubChecked (s : RunState) (e : SteadyEv)
    (h : pubChecked s.trace) : pubChecked (steadyStep s e).trace := by
  cases e with
  | localStatus st =>
      simp only [steadyStep]
      by_cases hab : s.aborted = true
      · rw [if_pos hab]
        exact h
      · rw [if_neg hab]
        refine publishState_pubChecked .steadyCb _ h (Or.inr ?_)
        revert hab
        cases s.aborted <;> simp
  | remoteStatus i st =>
      simp only [steadyStep]
      split
      · by_cases hab : s.aborted = true
        · rw [if_pos hab]
          exact h
        · rw [if_neg hab]
          refine publishState_pubChecked .steadyCb _ h (Or.inr ?_)
          revert hab
          cases s.aborted <;> simp
      · exact h
  | callStop => exact stopEngine_pubChecked s h

theorem foldl_steadyStep_pubChecked (evs : List SteadyEv) (s : RunState)
    (h : pubChecked s.trace) :
    pubChecked (evs.foldl steadyStep s).trace := by
  induction evs generalizing s with
  | nil => exact h
  | cons e rest ih => exact ih (steadyStep s e) (steadyStep_pubChecked s e h)

theorem unwind_pubChecked (r : Reason) (s : RunState)
    (h : pubChecked s.trace) : pubChecked (unwind r s).trace := by
  intro src b st hm
  rw [show (unwind r s).trace = s.trace
      ++ (match s.localPeer with
          | some _ => [TraceEv.stopLocalPeer]
          | none => [])
      ++ stopRemoteEvs s.remotePeers
      ++ [TraceEv.disposeSubs s.subsCount] from rfl] at hm
  rcases List.mem_append.mp hm with hm | hm
  · rcases List.mem_append.mp hm with hm | hm
    · rcases List.mem_append.mp hm with hm | hm
      · exact h src b st hm
      · cases hl : s.localPeer with
        | none => rw [hl] at hm; cases hm
        | some p => rw [hl] at hm; cases List.mem_singleton.mp hm
    · rcases List.mem_filterMap.mp hm with ⟨j, -, hj⟩
      rcases hq : s.remotePeers[j]? with - | q
      · rw [hq] at hj; cases hj
      · cases q with
        | none => rw [hq] at hj; cases hj
        | some pr => rw [hq] at hj; cases hj
  · cases List.mem_singleton.mp hm

theorem afterLocal_pubChecked (sch : SyncSchedule) :
    pubChecked (afterLocal sch).trace := by
  intro src b st hm
  rcases List.mem_append.mp hm with hm | hm
  · cases List.mem_singleton.mp hm
  · have he := List.mem_singleton.mp hm
    cases he
    exact Or.inr rfl

/-- C5 counterexample: a schedule on which `sync` recomputes and
publishes aggregate status after its run token has been aborted.  The
local load completes, then `stop()` aborts the token before the awaited
continuation runs; the unchecked publication after remote construction
then executes with `signal.aborted = true` (and overwrites the
`Stopped` snapshot `stop()` had published). -/
theorem c5_counterexample :
    TraceEv.publish PubSrc.afterRemotes true
        (updateSyncingState (some ⟨⟨SyncPeerStep.LoadingRootDoc⟩⟩) [])
      ∈ (runSync ⟨⟨SyncPeerStep.LoadingRootDoc⟩, [],
          [LoadEv.loadDone, LoadEv.callStop], []⟩).trace := by decide

/-- C5 amended: the status recomputations triggered by peer
status-change subscriptions (and the initial one after subscribing the
local peer) check the run token first and never execute after it is
aborted; only the direct recomputation after remote-peer construction
is unchecked and can execute with the token already aborted. -/
theorem c5_amended_publish_abort_check (sch : SyncSchedule) (src : PubSrc)
    (b : Bool) (st : SyncEngineStatus)
    (hm : TraceEv.publish src b st ∈ (runSync sch).trace) :
    src = PubSrc.afterRemotes ∨ b = false := by
  refine (?_ : pubChecked (runSync sch).trace) src b st hm
  have h2 : pubChecked (afterLoad sch).1.trace :=
    foldl_loadStep_pubChecked sch.loadPhase (afterLocal sch, .pendingP)
      (afterLocal_pubChecked sch)
  rcases hx : afterLoad sch with ⟨s2, p⟩
  rw [hx] at h2
  cases p with
  | pendingP =>
      simp only [runSync, hx]
      exact h2
  | rejectedP r =>
      simp only [runSync, hx]
      exact unwind_pubChecked r s2 h2
  | resolvedP =>
      simp only [runSync, hx]
      have h3 : pubChecked (publishState .afterRemotes
          (constructRemotes sch.remoteInits s2)).trace :=
        publishState_pubChecked .afterRemotes _
          (constructRemotes_pubChecked sch.remoteInits s2 h2) (Or.inl rfl)
      set s3 := publishState .afterRemotes
        (constructRemotes sch.remoteInits s2) with hs3
      by_cases hab : s3.aborted
      · rw [if_pos hab]
        exact unwind_pubChecked _ s3 h3
      · rw [if_neg hab]
        have h4 : pubChecked (sch.steadyPhase.foldl steadyStep s3).trace :=
          foldl_steadyStep_pubChecked sch.steadyPhase s3 h3
        set s4 := sch.steadyPhase.foldl steadyStep s3 with hs4
        by_cases hab4 : s4.aborted
        · rw [if_pos hab4]
          exact unwind_pubChecked _ s4 h4
        · rw [if_neg hab4]
          exact h4

/-- Witness for the amended C5 at a concrete schedule: the initial
publication of a trivial run was made with the token unaborted. -/
theorem c5_witness :
    PubSrc.initial = PubSrc.afterRemotes ∨ false = false :=
  c5_amended_publish_abort_check
    ⟨⟨SyncPeerStep.LoadingRootDoc⟩, [], [], []⟩ PubSrc.initial false
    (updateSyncingState (some ⟨⟨SyncPeerStep.LoadingRootDoc⟩⟩) [])
    (by decide)

/-! ## Unwind cleanup (claim C9) -/

/-- Every remote slot of the run state holds a constructed peer. -/
def remotesAllSome (s : RunState) : Prop :=
  ∀ q ∈ s.remotePeers, q.isSome = true

theorem stopEngine_localPeer (s : RunState) :
    (stopEngine s).localPeer = s.localPeer := by
  by_cases h : s.aborted <;> simp [stopEngine, h]

theorem stopEngine_remotePeers (s : RunState) :
    (stopEngine s).remotePeers = s.remotePeers := by
  by_cases h : s.aborted <;> simp [stopEngine, h]

theorem stopEngine_outcome (s : RunState) :
    (stopEngine s).outcome = s.outcome := by
  by_cases h : s.aborted <;> simp [stopEngine, h]

theorem loadStep_localPeer_isSome (x : RunState × LoadP) (e : LoadEv) :
    (loadStep x e).1.localPeer.isSome = x.1.localPeer.isSome := by
  rcases x with ⟨s, p⟩
  cases e with
  | localStatus st =>
      simp only [loadStep]
      split
      · exact Option.isSome_map'
      · exact Option.isSome_map'
  | loadDone => cases p <;> rfl
  | loadFail r => cases p <;> rfl
  | callStop => cases p <;> simp [loadStep, stopEngine_localPeer]

theorem loadStep_outcome (x : RunState × LoadP) (e : LoadEv) :
    (loadStep x e).1.outcome = x.1.outcome := by
  rcases x with ⟨s, p⟩
  cases e with
  | localStatus st =>
      simp only [loadStep]
      split
      · rfl
      · rfl
  | loadDone => cases p <;> rfl
  | loadFail r => cases p <;> rfl
  | callStop => cases p <;> simp [loadStep, stopEngine_outcome]

theorem foldl_loadStep_localPeer_isSome (evs : List LoadEv)
    (x : RunState × LoadP) :
    (evs.foldl loadStep x).1.localPeer.isSome = x.1.localPeer.isSome := by
  induction evs generalizing x with
  | nil => rfl
  | cons e rest ih => rw [List.foldl_cons, ih, loadStep_localPeer_isSome]

theorem foldl_loadStep_outcome (evs : List LoadEv) (x : RunState × LoadP) :
    (evs.foldl loadStep x).1.outcome = x.1.outcome := by
  induction evs generalizing x with
  | nil => rfl
  | cons e rest ih => rw [List.foldl_cons, ih, loadStep_outcome]

theorem steadyStep_localPeer_isSome (s : RunState) (e : SteadyEv) :
    (steadyStep s e).localPeer.isSome = s.localPeer.isSome := by
  cases e with
  | localStatus st =>
      simp only [steadyStep]
      split
      · exact Option.isSome_map'
      · exact Option.isSome_map'
  | remoteStatus i st =>
      simp only [steadyStep]
      split
      · split
        · rfl
        · rfl
      · rfl
  | callStop => simp [steadyStep, stopEngine_localPeer]

theorem steadyStep_outcome (s : RunState) (e : SteadyEv) :
    (steadyStep s e).outcome = s.outcome := by
  cases e with
  | localStatus st =>
      simp only [steadyStep]
      split
      · rfl
      · rfl
  | remoteStatus i st =>
      simp only [steadyStep]
      split
      · split
        · rfl
        · rfl
      · rfl
  | callStop => simp [steadyStep, stopEngine_outcome]

theorem steadyStep_remotes_length (s : RunState) (e : SteadyEv) :
    (steadyStep s e).remotePeers.length = s.remotePeers.length := by
  cases e with
  | localStatus st =>
      simp only [steadyStep]
      split
      · rfl
      · rfl
  | remoteStatus i st =>
      simp only [steadyStep]
      split
      · split
        · exact List.length_set s.remotePeers i _
        · exact List.length_set s.remotePeers i _
      · rfl
  | callStop => simp [steadyStep, stopEngine_remotePeers]

theorem steadyStep_remotesAllSome (s : RunState) (e : SteadyEv)
    (h : remotesAllSome s) : remotesAllSome (steadyStep s e) := by
  cases e with
  | localStatus st =>
      simp only [steadyStep]
      split
      · exact h
      · exact h
  | remoteStatus i st =>
      simp only [steadyStep]
      split
      · have hset : remotesAllSome
            { s with remotePeers := s.remotePeers.set i (some ⟨st⟩) } := by
          intro q hq
          rcases List.mem_or_eq_of_mem_set hq with hq | rfl
          · exact h q hq
          · rfl
        split
        · exact hset
        · exact hset
      · exact h
  | callStop =>
      intro q hq
      simp only [steadyStep] at hq
      rw [stopEngine_remotePeers] at hq
      exact h q hq

theorem foldl_steadyStep_localPeer_isSome (evs : List SteadyEv)
    (s : RunState) :
    (evs.foldl steadyStep s).localPeer.isSome = s.localPeer.isSome := by
  induction evs generalizing s with
  | nil => rfl
  | cons e rest ih => rw [List.foldl_cons, ih, steadyStep_localPeer_isSome]

theorem foldl_steadyStep_outcome (evs : List SteadyEv) (s : RunState) :
    (evs.foldl steadyStep s).outcome = s.outcome := by
  induction evs generalizing s with
  | nil => rfl
  | cons e rest ih => rw [List.foldl_cons, ih, steadyStep_outcome]

theorem foldl_steadyStep_remotes_length (evs : List SteadyEv) (s : RunState) :
    (evs.foldl steadyStep s).remotePeers.length = s.remotePeers.length := by
  induction evs generalizing s with
  | nil => rfl
  | cons e rest ih => rw [List.foldl_cons, ih, steadyStep_remotes_length]

theorem foldl_steadyStep_remotesAllSome (evs : List SteadyEv) (s : RunState)
    (h : remotesAllSome s) : remotesAllSome (evs.foldl steadyStep s) := by
  induction evs generalizing s with
  | nil => exact h
  | cons e rest ih =>
      rw [List.foldl_cons]
      exact ih (steadyStep s e) (steadyStep_remotesAllSome s e h)

theorem constructRemotes_remotesAllSome (inits : List SyncPeerStatus)
    (s : RunState) : remotesAllSome (constructRemotes inits s) := by
  intro q hq
  rcases List.mem_map.mp hq with ⟨st, -, rfl⟩
  rfl

theorem unwind_mem_stopLocal (r : Reason) (s : RunState)
    (h : s.localPeer.isSome = true) :
    TraceEv.stopLocalPeer ∈ (unwind r s).trace := by
  rcases Option.isSome_iff_exists.mp h with ⟨p, hp⟩
  have ht : (unwind r s).trace = ((s.trace ++ [TraceEv.stopLocalPeer])
      ++ stopRemoteEvs s.remotePeers)
      ++ [TraceEv.disposeSubs s.subsCount] := by
    show (s.trace
        ++ (match s.localPeer with
            | some _ => [TraceEv.stopLocalPeer]
            | none => [])
        ++ stopRemoteEvs s.remotePeers
        ++ [TraceEv.disposeSubs s.subsCount]) = _
    rw [hp]
  rw [ht]
  exact List.mem_append_left _ (List.mem_append_left _
    (List.mem_append_right _ (List.mem_singleton.mpr rfl)))

theorem unwind_mem_dispose (r : Reason) (s : RunState) :
    TraceEv.disposeSubs s.subsCount ∈ (unwind r s).trace :=
  List.mem_append_right _ (List.mem_singleton.mpr rfl)

theorem unwind_mem_stopRemote (r : Reason) (s : RunState) (i : Nat)
    (hi : i < s.remotePeers.length) (hall : remotesAllSome s) :
    TraceEv.stopRemotePeer i ∈ (unwind r s).trace := by
  have hmem : s.remotePeers[i] ∈ s.remotePeers := List.getElem_mem hi
  rcases Option.isSome_iff_exists.mp (hall _ hmem) with ⟨p, hp⟩
  have hq : s.remotePeers[i]? = some (some p) := by
    rw [List.getElem?_eq_getElem hi, hp]
  have hmf : TraceEv.stopRemotePeer i ∈ stopRemoteEvs s.remotePeers :=
    List.mem_filterMap.mpr ⟨i, List.mem_range.mpr hi, by rw [hq]⟩
  exact List.mem_append_left _ (List.mem_append_right _ hmf)

theorem unwind_props (r : Reason) (s : RunState) (o : Option Reason)
    (h : (unwind r s).outcome = some o) (hloc : s.localPeer.isSome = true) :
    TraceEv.stopLocalPeer ∈ (unwind r s).trace ∧
    TraceEv.disposeSubs ((unwind r s).subsCount) ∈ (unwind r s).trace ∧
    ((unwind r s).unwindReason = some Reason.manualStop ↔ o = none) ∧
    ∀ r', o = some r' → r' ≠ Reason.manualStop ∧
      startBoundaryLog (unwind r s) = [r'] := by
  have hout : (unwind r s).outcome =
      some (if r = Reason.manualStop then none else some r) := rfl
  rw [hout] at h
  have ho : o = if r = Reason.manualStop then none else some r :=
    (Option.some.inj h).symm
  refine ⟨unwind_mem_stopLocal r s hloc, unwind_mem_dispose r s, ?_, ?_⟩
  · constructor
    · intro hur
      have hrr : some r = some Reason.manualStop := hur
      rw [ho, if_pos (Option.some.inj hrr)]
    · intro hnone
      by_cases hr : r = Reason.manualStop
      · show some r = some Reason.manualStop
        rw [hr]
      · rw [ho, if_neg hr] at hnone
        cases hnone
  · intro r' hr'
    by_cases hr : r = Reason.manualStop
    · rw [ho, if_pos hr] at hr'
      cases hr'
    · rw [ho, if_neg hr] at hr'
      have hrr : r = r' := Option.some.inj hr'
      subst hrr
      refine ⟨hr, ?_⟩
      show startBoundaryLog (unwind r s) = [r]
      unfold startBoundaryLog
      rw [hout, if_neg hr]

theorem afterLoad_localPeer_isSome (sch : SyncSchedule) :
    (afterLoad sch).1.localPeer.isSome = true := by
  rw [afterLoad, foldl_loadStep_localPeer_isSome]
  rfl

theorem afterLoad_outcome (sch : SyncSchedule) :
    (afterLoad sch).1.outcome = none := by
  rw [afterLoad, foldl_loadStep_outcome]
  rfl

/-- C9: whenever the orchestration procedure unwinds (its outcome at
the `start()` boundary is settled), the local peer has been stopped,
every constructed remote peer has been stopped, every registered
status-change subscription has been disposed; the run terminates
normally (outcome `none`) exactly when its unwind reason is the
manual-stop sentinel, and any other fault reaches the `start()`
boundary where it is only logged, never rethrown. -/
theorem c9_unwind_cleanup (sch : SyncSchedule) (o : Option Reason)
    (h : (runSync sch).outcome = some o) :
    TraceEv.stopLocalPeer ∈ (runSync sch).trace ∧
    (∀ i, TraceEv.constructRemote i ∈ (runSync sch).trace →
      TraceEv.stopRemotePeer i ∈ (runSync sch).trace) ∧
    TraceEv.disposeSubs ((runSync sch).subsCount) ∈ (runSync sch).trace ∧
    ((runSync sch).unwindReason = some Reason.manualStop ↔ o = none) ∧
    (∀ r, o = some r → r ≠ Reason.manualStop ∧
      startBoundaryLog (runSync sch) = [r]) := by
  rcases hx : afterLoad sch with ⟨s2, p⟩
  have hloc2 : s2.localPeer.isSome = true := by
    have := afterLoad_localPeer_isSome sch
    rw [hx] at this
    exact this
  have hout2 : s2.outcome = none := by
    have := afterLoad_outcome sch
    rw [hx] at this
    exact this
  have hnoCR2 : ∀ i, TraceEv.constructRemote i ∉ s2.trace := by
    intro i
    have := afterLoad_no_constructRemote sch i
    rw [hx] at this
    exact this
  cases p with
  | pendingP =>
      simp only [runSync, hx] at h
      rw [hout2] at h
      cases h
  | rejectedP r =>
      simp only [runSync, hx] at h ⊢
      rcases unwind_props r s2 o h hloc2 with ⟨h1, h3, h4, h5⟩
      refine ⟨h1, ?_, h3, h4, h5⟩
      intro i hm
      rcases unwind_trace r s2 with ⟨du, hdu, hnu⟩
      rw [hdu] at hm
      rcases List.mem_append.mp hm with hm | hm
      · exact absurd hm (hnoCR2 i)
      · exact absurd hm (hnu i)
  | resolvedP =>
      simp only [runSync, hx] at h ⊢
      set sCR := constructRemotes sch.remoteInits s2 with hsCR
      set s3 := publishState .afterRemotes sCR with hs3
      have hloc3 : s3.localPeer.isSome = true := hloc2
      have hout3 : s3.outcome = none := hout2
      have hall3 : remotesAllSome s3 :=
        constructRemotes_remotesAllSome sch.remoteInits s2
      have hlen3 : s3.remotePeers.length = sch.remoteInits.length := by
        show (sch.remoteInits.map fun st =>
          some (⟨st⟩ : SyncPeer)).length = _
        rw [List.length_map]
      have hcrt : sCR.trace = s2.trace ++
          ((List.range sch.remoteInits.length).map fun i =>
            TraceEv.constructRemote i) := rfl
      rcases publishState_trace_ext .afterRemotes sCR with ⟨dp, hdp, hnp⟩
      by_cases hab : s3.aborted
      · rw [if_pos hab] at h ⊢
        rcases unwind_props _ s3 o h hloc3 with ⟨h1, h3, h4, h5⟩
        refine ⟨h1, ?_, h3, h4, h5⟩
        intro i hm
        have hi : i < sch.remoteInits.length := by
          rcases unwind_trace (s3.abortReason.getD Reason.manualStop) s3
            with ⟨du, hdu, hnu⟩
          rw [hdu, hdp, hcrt] at hm
          rcases List.mem_append.mp hm with hm | hm
          · rcases List.mem_append.mp hm with hm | hm
            · rcases List.mem_append.mp hm with hm | hm
              · exact absurd hm (hnoCR2 i)
              · rcases List.mem_map.mp hm with ⟨j, hj, hji⟩
                cases hji
                exact List.mem_range.mp hj
            · exact absurd hm (hnp i)
          · exact absurd hm (hnu i)
        exact unwind_mem_stopRemote _ s3 i (by rw [hlen3]; exact hi) hall3
      · rw [if_neg hab] at h ⊢
        set s4 := sch.steadyPhase.foldl steadyStep s3 with hs4
        have hloc4 : s4.localPeer.isSome = true := by
          rw [hs4, foldl_steadyStep_localPeer_isSome]
          exact hloc3
        have hout4 : s4.outcome = none := by
          rw [hs4, foldl_steadyStep_outcome]
          exact hout3
        have hall4 : remotesAllSome s4 := by
          rw [hs4]
          exact foldl_steadyStep_remotesAllSome sch.steadyPhase s3 hall3
        have hlen4 : s4.remotePeers.length = sch.remoteInits.length := by
          rw [hs4, foldl_steadyStep_remotes_length]
          exact hlen3
        rcases foldl_steadyStep_trace sch.steadyPhase s3 with ⟨d4, hd4, hn4⟩
        by_cases hab4 : s4.aborted
        · rw [if_pos hab4] at h ⊢
          rcases unwind_props _ s4 o h hloc4 with ⟨h1, h3, h4, h5⟩
          refine ⟨h1, ?_, h3, h4, h5⟩
          intro i hm
          have hi : i < sch.remoteInits.length := by
            rcases unwind_trace (s4.abortReason.getD Reason.manualStop) s4
              with ⟨du, hdu, hnu⟩
            rw [hdu, hs4, hd4, hdp, hcrt] at hm
            rcases List.mem_append.mp hm with hm | hm
            · rcases List.mem_append.mp hm with hm | hm
              · rcases List.mem_append.mp hm with hm | hm
                · rcases List.mem_append.mp hm with hm | hm
                  · exact absurd hm (hnoCR2 i)
                  · rcases List.mem_map.mp hm with ⟨j, hj, hji⟩
                    cases hji
                    exact List.mem_range.mp hj
                · exact absurd hm (hnp i)
              · exact absurd hm (hn4 i)
            · exact absurd hm (hnu i)
          exact unwind_mem_stopRemote _ s4 i (by rw [hlen4]; exact hi) hall4
        · rw [if_neg hab4] at h
          rw [hout4] at h
          cases h

/-- Witness for C9: a run stopped during the steady phase unwinds with
the manual-stop sentinel: peers stopped, subscriptions disposed, normal
termination. -/
theorem c9_witness :
    TraceEv.stopLocalPeer ∈
      (runSync ⟨⟨SyncPeerStep.LoadingRootDoc⟩, [⟨SyncPeerStep.Syncing⟩],
        [LoadEv.loadDone], [SteadyEv.callStop]⟩).trace ∧
    TraceEv.stopRemotePeer 0 ∈
      (runSync ⟨⟨SyncPeerStep.LoadingRootDoc⟩, [⟨SyncPeerStep.Syncing⟩],
        [LoadEv.loadDone], [SteadyEv.callStop]⟩).trace ∧
    ((runSync ⟨⟨SyncPeerStep.LoadingRootDoc⟩, [⟨SyncPeerStep.Syncing⟩],
        [LoadEv.loadDone], [SteadyEv.callStop]⟩).unwindReason =
          some Reason.manualStop ↔ (none : Option Reason) = none) := by
  have h := c9_unwind_cleanup
    ⟨⟨SyncPeerStep.LoadingRootDoc⟩, [⟨SyncPeerStep.Syncing⟩],
      [LoadEv.loadDone], [SteadyEv.callStop]⟩ none (by decide)
  exact ⟨h.1, h.2.1 0 (by decide), h.2.2.2.1⟩

/-- C10: `stop()` writes the backing `_status` field directly, so the
new snapshot is readable but no status-change notification is emitted;
by contrast a status assignment through the setter (as
`updateSyncingState` performs) always emits. -/
theorem c10_stop_emits_nothing (e : SyncEngineState) :
    (e.stop).emitted = e.emitted ∧
    (e.stop).statusGet = stoppedStatus e.nRemotes ∧
    ∀ st : SyncEngineStatus, (e.setStatus st).emitted = e.emitted ++ [st] := by
  refine ⟨?_, rfl, fun st => rfl⟩
  by_cases h : e.abortFired
  · simp [SyncEngineState.stop, SyncEngineState.abortWith, h]
  · simp [SyncEngineState.stop, SyncEngineState.abortWith, h]

end AffineSync
